import Mathlib

/-!
Verification of the Neural Norse admission/allocation gate and bulk ledger
loader against their natural-language specification.

Shallow embedding conventions:
* JavaScript strings are modelled as lists of characters (`Str`).
* Cryptographic primitives (SHA-256 hex digests, keyed HMAC-SHA256 hex
  digests, base64url+JSON payload decoding) are opaque function parameters:
  every theorem holds for all instantiations, and witnesses instantiate
  them with concrete functions.
* `process.env` values are `Option Str` (absent = `none`); JavaScript
  falsiness of a string is emptiness.
* Redis and the in-memory metadata index are explicit state, and the
  handler returns the list of store writes it performs (its effect trace).
-/

/-- Character-list model of a JavaScript string. -/
abbrev Str := List Char

/-- Literal helper: the character data of a Lean string literal. -/
def lit (s : String) : Str := s.data

/- ### Proof-of-work verifier (src/api/mint.js, `verifyProofOfWork`) -/

/-- Fixed difficulty constant `DIFFICULTY = 4` (src/api/mint.js line 13). -/
def DIFFICULTY : Nat := 4

/-- The digest input `challenge + wallet + nonce` fed to SHA-256
(src/api/mint.js line 42), with the hex digest abstracted as `sha`. -/
def powDigest (sha : Str → Str) (challenge wallet nonce : Str) : Str :=
  sha (challenge ++ wallet ++ nonce)

/-- `verifyProofOfWork` generalized over the difficulty: the code computes
`hash.startsWith("0".repeat(d))`, i.e. a replicated-zero list being an
initial segment of the hex digest (src/api/mint.js lines 41-44). -/
def verifyProofOfWorkAt (sha : Str → Str) (d : Nat) (challenge wallet nonce : Str) : Bool :=
  (List.replicate d '0').isPrefixOf (powDigest sha challenge wallet nonce)

/-- `verifyProofOfWork` as in src/api/mint.js lines 41-44: the difficulty is
the fixed constant `DIFFICULTY`. -/
def verifyProofOfWork (sha : Str → Str) (challenge wallet nonce : Str) : Bool :=
  verifyProofOfWorkAt sha DIFFICULTY challenge wallet nonce

/-- Number of leading `'0'` hex digits of a hex digest (the quantity the
spec's acceptance condition is stated in terms of). -/
def leadingZeroHexDigits : Str → Nat
  | [] => 0
  | c :: rest => if c = '0' then leadingZeroHexDigits rest + 1 else 0

/- ### Challenge issuance and verification
(src/api/challenge.js and src/api/mint.js, `verifyChallenge`) -/

/-- The hard-coded fallback HMAC key string appearing in both
src/api/challenge.js line 23 and src/api/mint.js line 28. -/
def defaultSecret : Str := lit "neural-norse-default-secret"

/-- `process.env.CHALLENGE_SECRET || "neural-norse-default-secret"` as used
by the issuer (src/api/challenge.js line 23); `||` takes the fallback when
the variable is unset or empty. -/
def issuerChallengeKey (env : Option Str) : Str :=
  match env with
  | some s => if s = [] then defaultSecret else s
  | none => defaultSecret

/-- `process.env.CHALLENGE_SECRET || "neural-norse-default-secret"` as used
by the verifier (src/api/mint.js line 28). -/
def mintChallengeKey (env : Option Str) : Str :=
  match env with
  | some s => if s = [] then defaultSecret else s
  | none => defaultSecret

/-- The decoded challenge payload `{ wallet, timestamp, nonce }`
(src/api/challenge.js line 19). Timestamps are milliseconds. -/
structure Payload where
  wallet : Str
  timestamp : Nat
  nonce : Str
deriving DecidableEq, Repr

/-- Challenge string issuance (src/api/challenge.js lines 17-27): the token
is `hmac(key, payloadB64) ++ "." ++ payloadB64`, where `enc` abstracts
JSON-serialize-then-base64url and `hm` abstracts keyed HMAC-SHA256 hex. -/
def issueChallenge (hm : Str → Str → Str) (enc : Payload → Str) (env : Option Str)
    (wallet : Str) (timestamp : Nat) (nonce : Str) : Str :=
  hm (issuerChallengeKey env) (enc ⟨wallet, timestamp, nonce⟩) ++
    '.' :: enc ⟨wallet, timestamp, nonce⟩

/-- `challenge.split(".")` (src/api/mint.js line 24), on the character-list
model: split at every `'.'`. -/
def splitOnDotAux : Str → Str → List Str
  | [], acc => [acc.reverse]
  | c :: rest, acc =>
    if c = '.' then acc.reverse :: splitOnDotAux rest []
    else splitOnDotAux rest (c :: acc)

/-- `s.split(".")` for the challenge string. -/
def splitOnDot (s : Str) : List Str := splitOnDotAux s []

/-- Challenge TTL in milliseconds, `CHALLENGE_TTL = 300_000`
(src/api/mint.js line 14). -/
def CHALLENGE_TTL : Nat := 300000

/-- Result shape of `verifyChallenge` (src/api/mint.js lines 23-39); a
`.parseThrew` marks `JSON.parse` throwing, which the caller's try/catch
turns into a 500 response. -/
inductive ChallengeCheck where
  | malformed
  | badSignature
  | parseThrew
  | walletMismatch
  | expired
  | valid (p : Payload)
deriving DecidableEq, Repr

/-- `verifyChallenge(challenge, wallet)` (src/api/mint.js lines 23-39).
`hm` is the HMAC already keyed with the verifier's key, `dec` abstracts
base64url-decode + `JSON.parse` (returning `none` when parsing throws) and
`now` is `Date.now()`.  The code destructures the first two components of
the split and treats an empty (falsy) component as malformed. -/
def verifyChallenge (hm : Str → Str) (dec : Str → Option Payload) (now : Nat)
    (challenge wallet : Str) : ChallengeCheck :=
  match splitOnDot challenge with
  | hmacPart :: payloadB64 :: _ =>
    if hmacPart = [] ∨ payloadB64 = [] then .malformed
    else if hmacPart ≠ hm payloadB64 then .badSignature
    else
      match dec payloadB64 with
      | none => .parseThrew
      | some payload =>
        if payload.wallet ≠ wallet then .walletMismatch
        else if CHALLENGE_TTL < now - payload.timestamp then .expired
        else .valid payload
  | _ => .malformed

/- ### The Candy Machine mint handler (src/api/mint.js lines 46-172)

The handler is modelled for POST requests with a JSON body; CORS headers,
the OPTIONS/405 method branches and the Solana transaction-building calls
(which only construct and sign a transaction, mutating no gate state) are
outside the model.  The candy machine account is read-only state fetched
from chain; Redis is the shared store.  The model returns the HTTP-level
outcome, the ordered list of store writes the handler performed, and the
updated store. -/

/-- On-chain candy machine fields read by the handler
(src/api/mint.js lines 100-101). -/
structure CandyMachine where
  itemsAvailable : Nat
  itemsRedeemed : Nat
deriving DecidableEq, Repr

/-- The Redis-backed shared store: recorded used-challenge keys with the
wallet that used them (`challenge:<prefix> -> wallet`), and per-wallet mint
counters (`wallet:<w>:count`, absent keys reading as 0). -/
structure Store where
  usedChallenges : List (Str × Str)
  walletCounts : Str → Nat

/-- Store writes the handler can perform (src/api/mint.js lines 145, 148). -/
inductive Effect where
  | setUsedChallenge (key wallet : Str)
  | incrWallet (wallet : Str)
deriving DecidableEq, Repr

/-- Request body `{ wallet, challenge, nonce }`; `none` models an absent
field, and `nonce` is already coerced by `String(nonce)`. -/
structure MintReq where
  wallet : Option Str
  challenge : Option Str
  nonce : Option Str
deriving DecidableEq, Repr

/-- HTTP-level outcomes of the handler. `challengeError` carries the
verifyChallenge failure; `serverError` is the catch-all 500. -/
inductive MintOutcome where
  | missingFields
  | challengeError (c : ChallengeCheck)
  | powInvalid
  | quotaExceeded (count : Nat)
  | soldOut
  | success (remaining : Nat)
  | serverError
deriving DecidableEq, Repr

/-- Ambient configuration and read-only chain state for one request. -/
structure MintCtx where
  sha : Str → Str
  hmac : Str → Str → Str
  dec : Str → Option Payload
  secretEnv : Option Str
  maxPerWallet : Nat
  cm : CandyMachine
  now : Nat

/-- The mint handler (src/api/mint.js lines 46-172).  Steps in source
order: missing-field check (line 56), challenge verification (line 64),
proof of work (line 70), per-wallet quota read (lines 75-76), supply check
on the fetched candy machine (lines 101-105), then the two Redis writes
(lines 145 and 148) and the 200 response.  `itemsRemaining` is computed in
`Int` as JavaScript number subtraction. -/
def mintHandler (ctx : MintCtx) (st : Store) (req : MintReq) :
    MintOutcome × List Effect × Store :=
  match req.wallet, req.challenge, req.nonce with
  | some w, some c, some n =>
    if w = [] ∨ c = [] then (.missingFields, [], st)
    else
      match verifyChallenge (ctx.hmac (mintChallengeKey ctx.secretEnv)) ctx.dec ctx.now c w with
      | .valid _ =>
        if verifyProofOfWork ctx.sha c w n = false then (.powInvalid, [], st)
        else
          let walletMints := st.walletCounts w
          if ctx.maxPerWallet ≤ walletMints then (.quotaExceeded walletMints, [], st)
          else
            let itemsRemaining : Int :=
              (ctx.cm.itemsAvailable : Int) - (ctx.cm.itemsRedeemed : Int)
            if itemsRemaining ≤ 0 then (.soldOut, [], st)
            else
              let key := lit "challenge:" ++ c.take 64
              let st' : Store :=
                { usedChallenges := (key, w) :: st.usedChallenges
                  walletCounts := fun x =>
                    if x = w then st.walletCounts w + 1 else st.walletCounts x }
              (.success itemsRemaining.toNat,
               [.setUsedChallenge key w, .incrWallet w], st')
      | .parseThrew => (.serverError, [], st)
      | e => (.challengeError e, [], st)
  | _, _, _ => (.missingFields, [], st)

/- ### Interleaved quota check/increment (src/api/mint.js lines 74-81, 148)

The quota guard is a Redis `get` at line 75, a local comparison at line 76,
and a separate Redis `incr` at line 148.  Two concurrent requests for the
same wallet are modelled as two two-step programs over the shared counter:
step 1 reads the counter and decides from the read value, step 2 performs
the `incr` iff the decision was to allow.  A schedule interleaves the steps
of the two calls. -/

/-- Shared counter plus each call's local state: `read` holds the value the
call observed (none = not yet executed), `decided` holds whether the call
was allowed (none = not yet past its write step). -/
structure QuotaRace where
  count : Nat
  readA : Option Nat
  readB : Option Nat
  decidedA : Option Bool
  decidedB : Option Bool
deriving DecidableEq, Repr

/-- Initial race state over a shared counter value. -/
def quotaRaceInit (c : Nat) : QuotaRace :=
  { count := c, readA := none, readB := none, decidedA := none, decidedB := none }

/-- One scheduler step for call A (`who = false`) or call B (`who = true`):
the call's first step is the Redis read (line 75), its second step applies
the check from the read value (line 76) and, when allowed, the later
Redis `incr` (line 148). -/
def quotaStep (max : Nat) (who : Bool) (s : QuotaRace) : QuotaRace :=
  if who = false then
    match s.readA, s.decidedA with
    | none, _ => { s with readA := some s.count }
    | some v, none =>
      if max ≤ v then { s with decidedA := some false }
      else { s with decidedA := some true, count := s.count + 1 }
    | some _, some _ => s
  else
    match s.readB, s.decidedB with
    | none, _ => { s with readB := some s.count }
    | some v, none =>
      if max ≤ v then { s with decidedB := some false }
      else { s with decidedB := some true, count := s.count + 1 }
    | some _, some _ => s

/-- Run a schedule (list of call identifiers) from an initial state. -/
def quotaRun (max : Nat) (sched : List Bool) (s : QuotaRace) : QuotaRace :=
  sched.foldl (fun acc who => quotaStep max who acc) s

/- ### The find-first-unminted allocation variant
(src/api/mint.js lines 297-368, allocation at lines 332-345)

This variant picks the next inventory item from the in-memory metadata
index: `index.find(m => !m.minted)` (line 334), and after the mint call
marks it `available.minted = true; available.mintedTo = wallet`
(lines 344-345).  Only the fields the allocation logic touches are
modelled. -/

/-- An entry of `metadata-index.json` as mutated by the handler. -/
structure MetaItem where
  index : Nat
  minted : Bool
  mintedTo : Option Str
deriving DecidableEq, Repr

/-- Mark the item at list position `p` as minted to wallet `w`
(src/api/mint.js lines 344-345). -/
def markMintedAt (w : Str) (p : Nat) (items : List MetaItem) : List MetaItem :=
  match items[p]? with
  | none => items
  | some m => items.set p { m with minted := true, mintedTo := some w }

/-- One sequential allocation (src/api/mint.js lines 332-345): find the
first item with `minted = false`, mark it, and return its list position,
its `index` field (the id reported to the caller), and the new index state;
`none` is the `Sold out!` branch (line 336). -/
def allocOnce (w : Str) (items : List MetaItem) :
    Option (Nat × Nat × List MetaItem) :=
  match items.findIdx? (fun m => !m.minted) with
  | none => none
  | some p =>
    match items[p]? with
    | none => none
    | some m => some (p, m.index, markMintedAt w p items)

/-- Run a sequence of allocate calls (one per wallet in `ws`) against the
shared metadata index, collecting the (position, reported id) pairs of the
successful calls. -/
def allocSeq (ws : List Str) (items : List MetaItem) :
    List (Nat × Nat) × List MetaItem :=
  match ws with
  | [] => ([], items)
  | w :: rest =>
    match allocOnce w items with
    | none =>
      let (cs, fin) := allocSeq rest items
      (cs, fin)
    | some (p, id, items') =>
      let (cs, fin) := allocSeq rest items'
      ((p, id) :: cs, fin)

/-- Two concurrent calls to the find-first-unminted handler.  Between the
`find` (line 334) and the mutation (line 344) the handler awaits the
on-chain mint (line 340), so another request can run its own `find` in
between; each call is modelled as a `find` step recording the found
position and a `mark` step mutating the shared index and reporting the
id read from the item it found. -/
structure AllocRace where
  items : List MetaItem
  foundA : Option Nat
  foundB : Option Nat
  resultA : Option Nat
  resultB : Option Nat
deriving DecidableEq, Repr

/-- Initial state of the two-call allocation race. -/
def allocRaceInit (items : List MetaItem) : AllocRace :=
  { items := items, foundA := none, foundB := none, resultA := none, resultB := none }

/-- One scheduler step for call A (`who = false`) or B (`who = true`):
first step runs `index.find(m => !m.minted)`, second step marks the found
item and reports its `index` field. -/
def allocStep (w : Str) (who : Bool) (s : AllocRace) : AllocRace :=
  if who = false then
    match s.foundA, s.resultA with
    | none, _ =>
      { s with foundA := s.items.findIdx? (fun m => !m.minted) }
    | some p, none =>
      match s.items[p]? with
      | none => s
      | some m => { s with items := markMintedAt w p s.items, resultA := some m.index }
    | some _, some _ => s
  else
    match s.foundB, s.resultB with
    | none, _ =>
      { s with foundB := s.items.findIdx? (fun m => !m.minted) }
    | some p, none =>
      match s.items[p]? with
      | none => s
      | some m => { s with items := markMintedAt w p s.items, resultB := some m.index }
    | some _, some _ => s

/-- Run an interleaving schedule of the two allocate calls. -/
def allocRun (w : Str) (sched : List Bool) (s : AllocRace) : AllocRace :=
  sched.foldl (fun acc who => allocStep w who acc) s

/- ### Bulk loader resume points
(src/scripts/load-core-items-fast.js lines 45-59 and
src/unnamed/part_000 lines 52-61) -/

/-- The loader checkpoint file `core-cm-progress.json` as read by the
loaders: `itemsInserted` may be absent (`progress.itemsInserted || 0`). -/
structure LoaderCheckpoint where
  itemsInserted : Option Nat
  complete : Bool
deriving DecidableEq, Repr

/-- Batch size `BATCH_SIZE = 10` shared by both loader variants. -/
def LOADER_BATCH_SIZE : Nat := 10

/-- The batch start indices of a loop
`for (let i = startFrom; i < total; i += step)`. -/
def batchStarts (startFrom total step : Nat) : List Nat :=
  (List.range ((total - startFrom + step - 1) / step)).map
    (fun k => startFrom + step * k)

/-- Resume point of the fast loader
(src/scripts/load-core-items-fast.js line 51): `startFrom = onChainLoaded`,
the checkpoint being read only for the candy machine address. -/
def fastResumePoint (_progress : LoaderCheckpoint) (onChainLoaded : Nat) : Nat :=
  onChainLoaded

/-- Batch start indices actually sent by the fast loader
(src/scripts/load-core-items-fast.js line 59). -/
def fastBatchStarts (progress : LoaderCheckpoint) (onChainLoaded total : Nat) : List Nat :=
  batchStarts (fastResumePoint progress onChainLoaded) total LOADER_BATCH_SIZE

/-- Resume point of the fire-and-forget loader
(src/unnamed/part_000 lines 56-61): `let sent = progress.itemsInserted || 0`
and the loop starts at `sent`, the fetched on-chain count being only
logged. -/
def ffResumePoint (progress : LoaderCheckpoint) (_onChainLoaded : Nat) : Nat :=
  progress.itemsInserted.getD 0

/-- Batch start indices actually sent by the fire-and-forget loader
(src/unnamed/part_000 line 61). -/
def ffBatchStarts (progress : LoaderCheckpoint) (onChainLoaded total : Nat) : List Nat :=
  batchStarts (ffResumePoint progress onChainLoaded) total LOADER_BATCH_SIZE

/- ### Per-batch retry behaviour
(src/unnamed/part_001 lines 125-175 and
src/scripts/load-core-items-fast.js lines 66-88) -/

/-- Backoff delay before retrying attempt `a` in the create-candy-machine
loader: `2000 * Math.pow(2, attempt)` (src/unnamed/part_001 line 153). -/
def ccmDelay (attempt : Nat) : Nat := 2000 * 2 ^ attempt

/-- The create-candy-machine loader's per-batch retry loop
(src/unnamed/part_001 lines 132-157): up to `remaining` further attempts
starting at attempt number `attempt`; `fails a` says whether the publish at
attempt `a` throws.  Returns whether the batch succeeded and the list of
backoff delays slept (the code sleeps only when `attempt < 4`, i.e. when a
further attempt remains). -/
def ccmTryAux (fails : Nat → Bool) : Nat → Nat → Bool × List Nat
  | _, 0 => (false, [])
  | attempt, remaining + 1 =>
    if fails attempt then
      if remaining = 0 then (false, [])
      else
        let (ok, ds) := ccmTryAux fails (attempt + 1) remaining
        (ok, ccmDelay attempt :: ds)
    else (true, [])

/-- One batch under the create-candy-machine loader's
`for (let attempt = 0; attempt < 5; attempt++)` retry loop. -/
def ccmTryBatch (fails : Nat → Bool) : Bool × List Nat := ccmTryAux fails 0 5

/-- Observable loader events: a batch published, a checkpoint write of the
current `itemsInserted`, and the fatal `process.exit(1)`. -/
inductive LoadEvent where
  | published (batchStart : Nat)
  | checkpointWrite (itemsInserted : Nat)
  | fatalExit
deriving DecidableEq, Repr

/-- The create-candy-machine loader's batch loop
(src/unnamed/part_001 lines 125-175) over batches given as
(start index, batch length) pairs, with `fails start attempt` the failure
oracle and `inserted` the running `progress.itemsInserted`.  On a batch
exhausting its 5 attempts the loader writes the checkpoint (still holding
the pre-batch value) and exits fatally (lines 162-166); on success it
advances `itemsInserted` and persists it every 80 items or at the end
(lines 168-174).  Returns the event trace and whether the run completed. -/
def ccmLoaderGo (fails : Nat → Nat → Bool) (total : Nat) :
    List (Nat × Nat) → Nat → List LoadEvent × Bool
  | [], _ => ([], true)
  | (start, size) :: rest, inserted =>
    if (ccmTryBatch (fails start)).1 then
      let inserted' := start + size
      let cps : List LoadEvent :=
        if inserted' % 80 = 0 ∨ total ≤ inserted' then [.checkpointWrite inserted'] else []
      let (tr, done) := ccmLoaderGo fails total rest inserted'
      (.published start :: cps ++ tr, done)
    else ([.checkpointWrite inserted, .fatalExit], false)

/-- One batch under the fast loader's try/retry-once logic
(src/scripts/load-core-items-fast.js lines 66-88): on a first failure it
sleeps a fixed 1000 ms and retries once; a second failure is swallowed
(`// gap-fill later`).  Returns success and the delays slept. -/
def fastTryBatch (fails : Nat → Bool) : Bool × List Nat :=
  if fails 0 then
    if fails 1 then (false, [1000]) else (true, [1000])
  else (true, [])

/-- The fast loader's batch loop (src/scripts/load-core-items-fast.js
lines 59-99): whatever a batch's outcome, the loop moves on to the next
batch; no checkpoint is written and no exit is taken inside the loop. -/
def fastLoaderGo (fails : Nat → Nat → Bool) :
    List (Nat × Nat) → List LoadEvent × Bool
  | [] => ([], true)
  | (start, _) :: rest =>
    let (tr, done) := fastLoaderGo fails rest
    if (fastTryBatch (fails start)).1 then (.published start :: tr, done)
    else (tr, done)

/- ### Gap healing (src/scripts/fill-gaps.js)

The ledger's per-slot state is modelled as a function from slot index to
the optionally present config line; `fetchCandyMachine` exposes exactly
this per-index content. -/

/-- A config line as stored on chain and as built for `addConfigLines`:
name and uri with the shared prefixes stripped. -/
structure ConfigLine where
  name : Str
  uri : Str
deriving DecidableEq, Repr

/-- A metadata-index entry as read by the loader scripts (only the fields
the gap filler uses). -/
structure PubItem where
  name : Str
  metadataUri : Str
deriving DecidableEq, Repr

/-- `"https://arweave.net/".length` (src/scripts/fill-gaps.js line 18). -/
def URI_PREFIX_LEN : Nat := 20

/-- `"Neural Norse #".length` (src/scripts/fill-gaps.js line 19). -/
def NAME_PREFIX_LEN : Nat := 14

/-- The config line the scripts build from a metadata-index item
(src/scripts/fill-gaps.js lines 62-65): prefixes sliced off. -/
def configLineOf (p : PubItem) : ConfigLine :=
  { name := p.name.drop NAME_PREFIX_LEN, uri := p.metadataUri.drop URI_PREFIX_LEN }

/-- JavaScript `trim()`-relevant whitespace for the uris at hand. -/
def isWsChar (c : Char) : Bool :=
  c = ' ' || c = '\t' || c = '\n' || c = '\r'

/-- `s.trim()` on the character-list model. -/
def trimStr (s : Str) : Str :=
  ((s.dropWhile isWsChar).reverse.dropWhile isWsChar).reverse

/-- The emptiness test of src/scripts/fill-gaps.js line 48:
`!item || !item.uri || item.uri.trim() === ""`. -/
def slotEmpty (slot : Option ConfigLine) : Bool :=
  match slot with
  | none => true
  | some it => it.uri = [] || trimStr it.uri = []

/-- `emptyIndices` (src/scripts/fill-gaps.js lines 45-51): every index `i`
below `publicItems.length` whose on-chain slot is absent or blank, in
increasing order. -/
def emptyIndices (items : Nat → Option ConfigLine) (n : Nat) : List Nat :=
  (List.range n).filter (fun i => slotEmpty (items i))

/-- The ledger's observed loaded count over the expected range: number of
populated slots below `n`. -/
def loadedCount (items : Nat → Option ConfigLine) (n : Nat) : Nat :=
  ((List.range n).filter (fun i => !slotEmpty (items i))).length

/-- Publishing one config line at one index (`addConfigLines` with a
single-line batch, src/scripts/fill-gaps.js lines 70-74). -/
def publishAt (line : ConfigLine) (i : Nat) (items : Nat → Option ConfigLine) :
    Nat → Option ConfigLine :=
  fun j => if j = i then some line else items j

/-- One full gap-fill pass in which every attempted publish lands
(src/scripts/fill-gaps.js lines 60-93): each empty index receives the
config line built from the metadata index at that same position. -/
def fillPass (pub : Nat → PubItem) (items : Nat → Option ConfigLine) (n : Nat) :
    Nat → Option ConfigLine :=
  (emptyIndices items n).foldl (fun acc i => publishAt (configLineOf (pub i)) i acc) items

/-- Whether a handler outcome is the 200 success response. -/
def isSuccess : MintOutcome → Bool
  | .success _ => true
  | _ => false

/- ### Theorems -/

theorem replicate_zero_isPrefixOf_iff : ∀ (d : Nat) (l : Str),
    (List.replicate d '0').isPrefixOf l = true ↔ d ≤ leadingZeroHexDigits l
  | 0, _ => by simp [List.isPrefixOf]
  | d + 1, [] => by
    simp [List.replicate, List.isPrefixOf, leadingZeroHexDigits]
  | d + 1, c :: rest => by
    by_cases hc : c = '0'
    · subst hc
      simp [List.replicate, List.isPrefixOf, leadingZeroHexDigits,
        replicate_zero_isPrefixOf_iff d rest]
    · simp [List.replicate, List.isPrefixOf, leadingZeroHexDigits, hc,
        Ne.symm hc]

/-- Claim C4: for every difficulty `d`, token, identity and candidate, the
verifier accepts iff the hex digest of `hash(token ++ identity ++
candidate)` has at least `d` leading zero hex digits; the deployed
`verifyProofOfWork` is the instance at the fixed difficulty 4. -/
theorem C4_pow_accepts_iff_leading_zeros (sha : Str → Str) (d : Nat)
    (challenge wallet nonce : Str) :
    (verifyProofOfWorkAt sha d challenge wallet nonce = true ↔
      d ≤ leadingZeroHexDigits (powDigest sha challenge wallet nonce)) ∧
    (verifyProofOfWork sha challenge wallet nonce = true ↔
      4 ≤ leadingZeroHexDigits (powDigest sha challenge wallet nonce)) :=
  ⟨replicate_zero_isPrefixOf_iff d _, replicate_zero_isPrefixOf_iff 4 _⟩

theorem splitOnDotAux_no_dot (y : Str) : ∀ (acc : Str), '.' ∉ y →
    splitOnDotAux y acc = [acc.reverse ++ y] := by
  induction y with
  | nil => intro acc _; simp [splitOnDotAux]
  | cons c rest ih =>
    intro acc hy
    have hc : c ≠ '.' := fun h => hy (h ▸ List.mem_cons_self c rest)
    have hrest : '.' ∉ rest := fun h => hy (List.mem_cons_of_mem c h)
    simp [splitOnDotAux, hc, ih (c :: acc) hrest]

theorem splitOnDotAux_append_dot (y : Str) : ∀ (x acc : Str), '.' ∉ x →
    splitOnDotAux (x ++ '.' :: y) acc = (acc.reverse ++ x) :: splitOnDotAux y [] := by
  intro x
  induction x with
  | nil => intro acc _; simp [splitOnDotAux]
  | cons c rest ih =>
    intro acc hx
    have hc : c ≠ '.' := fun h => hx (h ▸ List.mem_cons_self c rest)
    have hrest : '.' ∉ rest := fun h => hx (List.mem_cons_of_mem c h)
    simp [splitOnDotAux, hc, ih (c :: acc) hrest]

theorem splitOnDot_tag_payload (x y : Str) (hx : '.' ∉ x) (hy : '.' ∉ y) :
    splitOnDot (x ++ '.' :: y) = [x, y] := by
  simp [splitOnDot, splitOnDotAux_append_dot y x [] hx, splitOnDotAux_no_dot y [] hy]

/-- Claim C10: with `CHALLENGE_SECRET` unset, issuance and verification key
their HMAC with the same hard-coded constant, and a challenge assembled by
any party from that public constant — here an arbitrary payload string `b`
tagged with `hm defaultSecret b`, no issuance involved — passes
`verifyChallenge` whenever the bound wallet matches and the embedded
timestamp is fresh: token integrity does not depend on a server-held
secret. -/
theorem C10_default_secret_accepts_forged (hm : Str → Str → Str)
    (dec : Str → Option Payload) (now : Nat) (w b : Str) (p : Payload)
    (htag : hm defaultSecret b ≠ []) (hb : b ≠ [])
    (hdot1 : '.' ∉ hm defaultSecret b) (hdot2 : '.' ∉ b)
    (hdec : dec b = some p) (hw : p.wallet = w)
    (hfresh : now - p.timestamp ≤ CHALLENGE_TTL) :
    issuerChallengeKey none = defaultSecret ∧
    mintChallengeKey none = defaultSecret ∧
    verifyChallenge (hm (mintChallengeKey none)) dec now
      (hm defaultSecret b ++ '.' :: b) w = .valid p := by
  refine ⟨rfl, rfl, ?_⟩
  rw [verifyChallenge, splitOnDot_tag_payload _ _ hdot1 hdot2]
  simp [htag, hb, mintChallengeKey, hdec, hw, Nat.not_lt.mpr hfresh]

/-- Witness for C10 at a concrete HMAC, decoder, wallet and payload. -/
theorem C10_witness :
    issuerChallengeKey none = defaultSecret ∧
    mintChallengeKey none = defaultSecret ∧
    verifyChallenge ((fun k m => k ++ m) (mintChallengeKey none))
      (fun s => if s = lit "x" then some ⟨lit "w", 0, lit "n"⟩ else none) 0
      ((fun k m => k ++ m) defaultSecret (lit "x") ++ '.' :: lit "x") (lit "w") =
      .valid ⟨lit "w", 0, lit "n"⟩ :=
  C10_default_secret_accepts_forged (fun k m => k ++ m)
    (fun s => if s = lit "x" then some ⟨lit "w", 0, lit "n"⟩ else none) 0
    (lit "w") (lit "x") ⟨lit "w", 0, lit "n"⟩
    (by decide) (by decide) (by decide) (by decide) (by decide) (by decide)
    (by decide)

theorem verifyChallenge_not_valid_of_bad (hm0 : Str → Str)
    (dec : Str → Option Payload) (now : Nat) (c w : Str)
    (hp b : Str) (rest : List Str)
    (hsplit : splitOnDot c = hp :: b :: rest)
    (hbad : hp ≠ hm0 b ∨
      ∃ q, dec b = some q ∧ (q.wallet ≠ w ∨ CHALLENGE_TTL < now - q.timestamp))
    (p : Payload) : verifyChallenge hm0 dec now c w ≠ .valid p := by
  unfold verifyChallenge
  rw [hsplit]
  dsimp only
  by_cases h1 : hp = [] ∨ b = []
  · simp [h1]
  · rw [if_neg h1]
    by_cases h2 : hp = hm0 b
    · rw [if_neg (not_not_intro h2)]
      rcases hdec : dec b with _ | q
      · simp
      · rcases hbad with hbad | ⟨q', hq', hbad⟩
        · exact absurd h2 hbad
        · have hqq : q' = q := by
            rw [hq'] at hdec
            exact Option.some.inj hdec
          subst hqq
          rcases hbad with hbw | hbt
          · simp [hbw]
          · by_cases hw2 : q'.wallet ≠ w
            · simp [hw2]
            · dsimp only
              rw [if_neg hw2, if_pos hbt]
              simp
    · rw [if_pos h2]
      simp

/-- Claim C5: a request whose token is expired or forged (bad integrity
tag, or bound to a different wallet) is rejected by the handler before the
proof of work is ever consulted: for every candidate nonce and every hash
function the outcome is not a success and no store write happens. -/
theorem C5_expired_or_forged_rejected (ctx : MintCtx) (st : Store) (w c n : Str)
    (hp b : Str) (rest : List Str)
    (hsplit : splitOnDot c = hp :: b :: rest)
    (hbad : hp ≠ ctx.hmac (mintChallengeKey ctx.secretEnv) b ∨
      ∃ q, ctx.dec b = some q ∧
        (q.wallet ≠ w ∨ CHALLENGE_TTL < ctx.now - q.timestamp)) :
    isSuccess (mintHandler ctx st ⟨some w, some c, some n⟩).1 = false ∧
    (mintHandler ctx st ⟨some w, some c, some n⟩).2.1 = [] ∧
    (mintHandler ctx st ⟨some w, some c, some n⟩).2.2 = st := by
  have hnv := verifyChallenge_not_valid_of_bad
    (ctx.hmac (mintChallengeKey ctx.secretEnv)) ctx.dec ctx.now c w hp b rest
    hsplit hbad
  by_cases h1 : w = [] ∨ c = []
  · simp [mintHandler, h1, isSuccess]
  · rcases hv : verifyChallenge (ctx.hmac (mintChallengeKey ctx.secretEnv))
      ctx.dec ctx.now c w with _ | _ | _ | _ | _ | p
    · simp [mintHandler, h1, hv, isSuccess]
    · simp [mintHandler, h1, hv, isSuccess]
    · simp [mintHandler, h1, hv, isSuccess]
    · simp [mintHandler, h1, hv, isSuccess]
    · simp [mintHandler, h1, hv, isSuccess]
    · exact absurd hv (hnv p)

/-- Witness for C5: an expired token (issued at time 0, verified at time
1000000 > TTL) is rejected even though the instantiated hash satisfies the
difficulty prefix. -/
theorem C5_witness :
    isSuccess (mintHandler
      ⟨fun _ => lit "0000", fun k m => k ++ m,
       (fun s => if s = lit "x" then some ⟨lit "w", 0, lit "n"⟩ else none),
       none, 10, ⟨2, 0⟩, 1000000⟩
      ⟨[], fun _ => 0⟩
      ⟨some (lit "w"), some (lit "t.x"), some (lit "5")⟩).1 = false ∧
    (mintHandler
      ⟨fun _ => lit "0000", fun k m => k ++ m,
       (fun s => if s = lit "x" then some ⟨lit "w", 0, lit "n"⟩ else none),
       none, 10, ⟨2, 0⟩, 1000000⟩
      ⟨[], fun _ => 0⟩
      ⟨some (lit "w"), some (lit "t.x"), some (lit "5")⟩).2.1 = [] ∧
    (mintHandler
      ⟨fun _ => lit "0000", fun k m => k ++ m,
       (fun s => if s = lit "x" then some ⟨lit "w", 0, lit "n"⟩ else none),
       none, 10, ⟨2, 0⟩, 1000000⟩
      ⟨[], fun _ => 0⟩
      ⟨some (lit "w"), some (lit "t.x"), some (lit "5")⟩).2.2 = ⟨[], fun _ => 0⟩ :=
  C5_expired_or_forged_rejected
    ⟨fun _ => lit "0000", fun k m => k ++ m,
     (fun s => if s = lit "x" then some ⟨lit "w", 0, lit "n"⟩ else none),
     none, 10, ⟨2, 0⟩, 1000000⟩
    ⟨[], fun _ => 0⟩ (lit "w") (lit "t.x") (lit "5") (lit "t") (lit "x") []
    (by decide)
    (Or.inr ⟨⟨lit "w", 0, lit "n"⟩, by decide, Or.inr (by decide)⟩)

/-- Claim C1 (code defect): the handler records a used challenge under a
`challenge:` key (src/api/mint.js line 145) but no path ever reads that
key, so a second call presenting the very same token against the store
that already records it succeeds again instead of being rejected as a
replay.  Concrete run: a first call succeeds and records the challenge;
replaying the identical request against the resulting store succeeds a
second time. -/
theorem C1_replay_not_prevented :
    (mintHandler
      ⟨fun _ => lit "0000", fun k m => k ++ m,
       (fun s => if s = lit "x" then some ⟨lit "w", 0, lit "n"⟩ else none),
       none, 10, ⟨2, 0⟩, 0⟩
      ⟨[], fun _ => 0⟩
      ⟨some (lit "w"), some (lit "neural-norse-default-secretx.x"),
       some (lit "5")⟩).1 = .success 2 ∧
    (mintHandler
      ⟨fun _ => lit "0000", fun k m => k ++ m,
       (fun s => if s = lit "x" then some ⟨lit "w", 0, lit "n"⟩ else none),
       none, 10, ⟨2, 0⟩, 0⟩
      ⟨[], fun _ => 0⟩
      ⟨some (lit "w"), some (lit "neural-norse-default-secretx.x"),
       some (lit "5")⟩).2.2.usedChallenges =
      [(lit "challenge:neural-norse-default-secretx.x", lit "w")] ∧
    (mintHandler
      ⟨fun _ => lit "0000", fun k m => k ++ m,
       (fun s => if s = lit "x" then some ⟨lit "w", 0, lit "n"⟩ else none),
       none, 10, ⟨2, 0⟩, 0⟩
      (mintHandler
        ⟨fun _ => lit "0000", fun k m => k ++ m,
         (fun s => if s = lit "x" then some ⟨lit "w", 0, lit "n"⟩ else none),
         none, 10, ⟨2, 0⟩, 0⟩
        ⟨[], fun _ => 0⟩
        ⟨some (lit "w"), some (lit "neural-norse-default-secretx.x"),
         some (lit "5")⟩).2.2
      ⟨some (lit "w"), some (lit "neural-norse-default-secretx.x"),
       some (lit "5")⟩).1 = .success 2 := by
  decide

/-- Counterexample to C6 as stated: on a sold-out call the handler's effect
trace is empty — no supply-counter increment is ever performed on this path
and hence no compensating decrement exists to be observed; the sold-out
check (src/api/mint.js lines 101-105) reads the on-chain counter and
returns before any mutation. -/
theorem C6_counterexample :
    mintHandler
      ⟨fun _ => lit "0000", fun k m => k ++ m,
       (fun s => if s = lit "x" then some ⟨lit "w", 0, lit "n"⟩ else none),
       none, 10, ⟨2, 2⟩, 0⟩
      ⟨[], fun _ => 0⟩
      ⟨some (lit "w"), some (lit "neural-norse-default-secretx.x"),
       some (lit "5")⟩ =
    (.soldOut, [], ⟨[], fun _ => 0⟩) := by
  rfl

/-- Claim C6 amended: once the redeemed count has reached the total
supply, every allocate call that passes the token, proof-of-work and quota
checks returns SoldOut, and the handler performs no store write and leaves
the store unchanged — the supply check precedes any counter mutation, so
there is no transient overshoot and nothing to roll back. -/
theorem C6_soldout_before_any_mutation (ctx : MintCtx) (st : Store)
    (w c n : Str) (p : Payload)
    (hw : w ≠ []) (hc : c ≠ [])
    (hval : verifyChallenge (ctx.hmac (mintChallengeKey ctx.secretEnv))
      ctx.dec ctx.now c w = .valid p)
    (hpow : verifyProofOfWork ctx.sha c w n = true)
    (hq : st.walletCounts w < ctx.maxPerWallet)
    (hsold : ctx.cm.itemsAvailable ≤ ctx.cm.itemsRedeemed) :
    (mintHandler ctx st ⟨some w, some c, some n⟩).1 = .soldOut ∧
    (mintHandler ctx st ⟨some w, some c, some n⟩).2.1 = [] ∧
    (mintHandler ctx st ⟨some w, some c, some n⟩).2.2 = st := by
  have hrem : (ctx.cm.itemsAvailable : Int) - (ctx.cm.itemsRedeemed : Int) ≤ 0 := by
    omega
  have hnq : ¬ ctx.maxPerWallet ≤ st.walletCounts w := Nat.not_le.mpr hq
  simp [mintHandler, hw, hc, hval, hpow, hnq, hrem]

/-- Witness for C6: a concrete fully-valid request against a candy machine
with all 2 of 2 items redeemed. -/
theorem C6_witness :
    (mintHandler
      ⟨fun _ => lit "0000", fun k m => k ++ m,
       (fun s => if s = lit "x" then some ⟨lit "w", 0, lit "n"⟩ else none),
       none, 10, ⟨2, 2⟩, 0⟩
      ⟨[], fun _ => 0⟩
      ⟨some (lit "w"), some (lit "neural-norse-default-secretx.x"),
       some (lit "5")⟩).1 = .soldOut ∧
    (mintHandler
      ⟨fun _ => lit "0000", fun k m => k ++ m,
       (fun s => if s = lit "x" then some ⟨lit "w", 0, lit "n"⟩ else none),
       none, 10, ⟨2, 2⟩, 0⟩
      ⟨[], fun _ => 0⟩
      ⟨some (lit "w"), some (lit "neural-norse-default-secretx.x"),
       some (lit "5")⟩).2.1 = [] ∧
    (mintHandler
      ⟨fun _ => lit "0000", fun k m => k ++ m,
       (fun s => if s = lit "x" then some ⟨lit "w", 0, lit "n"⟩ else none),
       none, 10, ⟨2, 2⟩, 0⟩
      ⟨[], fun _ => 0⟩
      ⟨some (lit "w"), some (lit "neural-norse-default-secretx.x"),
       some (lit "5")⟩).2.2 = ⟨[], fun _ => 0⟩ :=
  C6_soldout_before_any_mutation
    ⟨fun _ => lit "0000", fun k m => k ++ m,
     (fun s => if s = lit "x" then some ⟨lit "w", 0, lit "n"⟩ else none),
     none, 10, ⟨2, 2⟩, 0⟩
    ⟨[], fun _ => 0⟩ (lit "w") (lit "neural-norse-default-secretx.x")
    (lit "5") ⟨lit "w", 0, lit "n"⟩
    (by decide) (by decide) (by decide) (by decide) (by decide) (by decide)

theorem batchStarts_head (s total step : Nat) (h : s < total) (hs : 0 < step) :
    (batchStarts s total step).head? = some s := by
  unfold batchStarts
  have hd : 1 ≤ total - s := by omega
  have hcnt : 1 ≤ (total - s + step - 1) / step := by
    refine (Nat.le_div_iff_mul_le hs).mpr ?_
    omega
  rcases hc : (total - s + step - 1) / step with _ | m
  · omega
  · rw [List.range_succ_eq_map]
    simp

/-- Counterexample to C2 as stated: with checkpoint value 5 and observed
ledger count 3 (total 20), the fast loader's resume point — the first index
it sends from — is 3, not `max 5 3 = 5`: the checkpoint is ignored rather
than combined with the ledger count. -/
theorem C2_counterexample :
    (fastBatchStarts ⟨some 5, false⟩ 3 20).head? = some 3 ∧
    fastResumePoint ⟨some 5, false⟩ 3 ≠ max 5 3 := by
  decide

/-- Claim C2 amended: the fast loader resumes from the observed ledger
count alone, discarding the checkpoint even when the checkpoint is larger,
while the fire-and-forget loader variant resumes from the checkpoint's
`itemsInserted` alone, discarding the observed ledger count; neither takes
the maximum of the two. -/
theorem C2_resume_points (cp : LoaderCheckpoint) (n total c : Nat)
    (h1 : n < total) (h2 : c < total) :
    fastResumePoint cp n = n ∧
    (fastBatchStarts cp n total).head? = some n ∧
    ffResumePoint ⟨some c, cp.complete⟩ n = c ∧
    (ffBatchStarts ⟨some c, cp.complete⟩ n total).head? = some c := by
  refine ⟨rfl, ?_, rfl, ?_⟩
  · exact batchStarts_head n total LOADER_BATCH_SIZE h1 (by decide)
  · exact batchStarts_head c total LOADER_BATCH_SIZE h2 (by decide)

/-- Witness for C2 at checkpoint 5, ledger count 3, total 20. -/
theorem C2_witness :
    fastResumePoint ⟨some 5, false⟩ 3 = 3 ∧
    (fastBatchStarts ⟨some 5, false⟩ 3 20).head? = some 3 ∧
    ffResumePoint ⟨some 5, false⟩ 3 = 5 ∧
    (ffBatchStarts ⟨some 5, false⟩ 3 20).head? = some 5 :=
  C2_resume_points ⟨some 5, false⟩ 3 20 5 (by decide) (by decide)

/-- Counterexample to C3 as stated: the quota guard is a Redis read
(src/api/mint.js line 75) followed by a much later separate increment
(line 148), not an atomic compare-and-increment; with the cap at 10 and
the shared counter at 9, the interleaving read-read-incr-incr lets both
concurrent calls for the same wallet pass the check and drives the counter
to 11, exceeding the cap. -/
theorem C3_counterexample :
    quotaRun 10 [false, true, false, true] (quotaRaceInit 9) =
      ⟨11, some 9, some 9, some true, some true⟩ ∧ 10 < 11 := by
  decide

/-- Claim C3 amended: because the check and the increment are separate
store operations, for every cap `m` and an identity whose counter stands
at `m - 1`, the interleaving read-read-incr-incr admits both of two
concurrent calls and leaves the counter at `m + 1`; under the serialized
schedule the second call is denied and the counter stays at the cap. -/
theorem C3_read_then_incr_race (m c : Nat) (h : c + 1 = m) :
    quotaRun m [false, true, false, true] (quotaRaceInit c) =
      ⟨c + 2, some c, some c, some true, some true⟩ ∧
    quotaRun m [false, false, true, true] (quotaRaceInit c) =
      ⟨c + 1, some c, some (c + 1), some true, some false⟩ := by
  subst h
  have hlt : ¬ (c + 1 ≤ c) := by omega
  constructor
  · simp [quotaRun, List.foldl, quotaStep, quotaRaceInit, hlt]
  · simp [quotaRun, List.foldl, quotaStep, quotaRaceInit, hlt]

/-- Witness for C3 at cap 10, counter 9. -/
theorem C3_witness :
    quotaRun 10 [false, true, false, true] (quotaRaceInit 9) =
      ⟨9 + 2, some 9, some 9, some true, some true⟩ ∧
    quotaRun 10 [false, false, true, true] (quotaRaceInit 9) =
      ⟨9 + 1, some 9, some (9 + 1), some true, some false⟩ :=
  C3_read_then_incr_race 10 9 (by decide)

/-- Counterexample to C9 as stated: in the fast loader a failed batch gets
one retry after a fixed 1000 ms delay (no exponential series), and when
both attempts fail the loader neither persists a checkpoint nor terminates
fatally — it moves on to the next batch (src/scripts/load-core-items-fast.js
lines 73-88).  With batch 0 always failing and batch 10 succeeding, the run
finishes normally having published the later batch. -/
theorem C9_counterexample :
    fastTryBatch (fun _ => true) = (false, [1000]) ∧
    fastLoaderGo (fun s _ => s == 0) [(0, 10), (10, 10)] =
      ([.published 10], true) := by
  decide

/-- Claim C9 amended: in the create-candy-machine loader each batch is
attempted at most 5 times with exponentially increasing backoff delays
2000·2^a ms (2000, 4000, 8000, 16000), and when all attempts fail the run
persists the checkpoint still holding the pre-batch `itemsInserted` and
terminates fatally with nothing further published; the fast loader instead
retries once after a fixed 1000 ms and on a second failure skips the batch
and continues. -/
theorem C9_bounded_retry_then_fatal (fails : Nat → Nat → Bool) (total : Nat)
    (start size : Nat) (rest : List (Nat × Nat)) (inserted : Nat)
    (hfail : ∀ a, a < 5 → fails start a = true) :
    ccmTryBatch (fails start) = (false, [2000, 4000, 8000, 16000]) ∧
    ccmLoaderGo fails total ((start, size) :: rest) inserted =
      ([.checkpointWrite inserted, .fatalExit], false) ∧
    fastTryBatch (fails start) = (false, [1000]) ∧
    fastLoaderGo fails ((start, size) :: rest) = fastLoaderGo fails rest := by
  have h0 := hfail 0 (by omega)
  have h1 := hfail 1 (by omega)
  have h2 := hfail 2 (by omega)
  have h3 := hfail 3 (by omega)
  have h4 := hfail 4 (by omega)
  have htry : ccmTryBatch (fails start) = (false, [2000, 4000, 8000, 16000]) := by
    simp [ccmTryBatch, ccmTryAux, h0, h1, h2, h3, h4, ccmDelay]
  have hfast : fastTryBatch (fails start) = (false, [1000]) := by
    simp [fastTryBatch, h0, h1]
  refine ⟨htry, ?_, hfast, ?_⟩
  · simp [ccmLoaderGo, htry]
  · rcases hr : fastLoaderGo fails rest with ⟨tr, done⟩
    simp [fastLoaderGo, hr, hfast]

/-- Witness for C9: an always-failing oracle on a two-batch plan. -/
theorem C9_witness :
    ccmTryBatch ((fun _ _ => true) 0) = (false, [2000, 4000, 8000, 16000]) ∧
    ccmLoaderGo (fun _ _ => true) 100 [(0, 10), (10, 10)] 0 =
      ([.checkpointWrite 0, .fatalExit], false) ∧
    fastTryBatch ((fun _ _ => true) 0) = (false, [1000]) ∧
    fastLoaderGo (fun _ _ => true) [(0, 10), (10, 10)] =
      fastLoaderGo (fun _ _ => true) [(10, 10)] :=
  C9_bounded_retry_then_fatal (fun _ _ => true) 100 0 10 [(10, 10)] 0
    (fun _ _ => rfl)

theorem length_filter_bool_compl {α : Type} (p : α → Bool) (l : List α) :
    (l.filter p).length + (l.filter (fun a => !p a)).length = l.length := by
  induction l with
  | nil => simp
  | cons a t ih =>
    cases hp : p a <;> simp [List.filter, hp] <;> omega

theorem foldl_publishAt_apply (f : Nat → ConfigLine) :
    ∀ (idxs : List Nat) (items : Nat → Option ConfigLine) (i : Nat),
      (idxs.foldl (fun acc j => publishAt (f j) j acc) items) i =
        if i ∈ idxs then some (f i) else items i := by
  intro idxs
  induction idxs with
  | nil => intro items i; simp
  | cons j rest ih =>
    intro items i
    by_cases hr : i ∈ rest
    · simp [List.foldl, ih, hr, List.mem_cons]
    · by_cases hj : i = j
      · subst hj
        simp [List.foldl, ih, hr, publishAt, List.mem_cons]
      · simp [List.foldl, ih, hr, publishAt, hj, List.mem_cons]

/-- Claim C8: one gap-fill pass targets exactly the empty slots — the
computed index list has no duplicates, contains only in-range indices whose
slot is empty, covers every such index, and its length plus the populated
count is the expected total; when every attempted publish lands (and the
published config lines are non-blank), the observed loaded count afterwards
equals the expected total. -/
theorem C8_gap_fill_exactly_missing (items : Nat → Option ConfigLine)
    (pub : Nat → PubItem) (n : Nat)
    (hfill : ∀ i, i < n → slotEmpty (items i) = true →
      slotEmpty (some (configLineOf (pub i))) = false) :
    (emptyIndices items n).Nodup ∧
    (emptyIndices items n).all
      (fun i => slotEmpty (items i) && decide (i < n)) = true ∧
    (List.range n).all
      (fun i => !slotEmpty (items i) || decide (i ∈ emptyIndices items n)) = true ∧
    (emptyIndices items n).length + loadedCount items n = n ∧
    loadedCount (fillPass pub items n) n = n := by
  refine ⟨?_, ?_, ?_, ?_, ?_⟩
  · exact (List.nodup_range n).filter _
  · rw [List.all_eq_true]
    intro i hi
    rw [emptyIndices, List.mem_filter, List.mem_range] at hi
    simp [hi.1, hi.2]
  · rw [List.all_eq_true]
    intro i hi
    by_cases he : slotEmpty (items i) = true
    · have : i ∈ emptyIndices items n := by
        rw [emptyIndices, List.mem_filter]
        exact ⟨hi, he⟩
      simp [this]
    · simp [he]
  · have := length_filter_bool_compl (fun i => slotEmpty (items i)) (List.range n)
    rw [List.length_range] at this
    rw [emptyIndices, loadedCount]
    exact this
  · rw [loadedCount]
    have hall : ∀ i ∈ List.range n,
        (!slotEmpty ((fillPass pub items n) i)) = true := by
      intro i hi
      rw [List.mem_range] at hi
      rw [fillPass, foldl_publishAt_apply]
      by_cases he : i ∈ emptyIndices items n
      · rw [if_pos he]
        have hempty : slotEmpty (items i) = true := by
          rw [emptyIndices, List.mem_filter] at he
          exact he.2
        simp [hfill i hi hempty]
      · rw [if_neg he]
        have : ¬ slotEmpty (items i) = true := by
          intro hx
          exact he (by rw [emptyIndices, List.mem_filter, List.mem_range]; exact ⟨hi, hx⟩)
        simp [this]
    rw [List.filter_eq_self.mpr hall, List.length_range]

/-- Witness for C8: a three-slot ledger with slot 1 empty. -/
theorem C8_witness :
    (emptyIndices (fun i => if i = 1 then none else some ⟨lit "a", lit "u"⟩) 3).Nodup ∧
    (emptyIndices (fun i => if i = 1 then none else some ⟨lit "a", lit "u"⟩) 3).all
      (fun i => slotEmpty ((fun i => if i = 1 then none else some ⟨lit "a", lit "u"⟩) i) &&
        decide (i < 3)) = true ∧
    (List.range 3).all
      (fun i => !slotEmpty ((fun i => if i = 1 then none else some ⟨lit "a", lit "u"⟩) i) ||
        decide (i ∈ emptyIndices (fun i => if i = 1 then none else some ⟨lit "a", lit "u"⟩) 3)) = true ∧
    (emptyIndices (fun i => if i = 1 then none else some ⟨lit "a", lit "u"⟩) 3).length +
      loadedCount (fun i => if i = 1 then none else some ⟨lit "a", lit "u"⟩) 3 = 3 ∧
    loadedCount
      (fillPass (fun _ => ⟨lit "Neural Norse #1", lit "https://arweave.net/abc"⟩)
        (fun i => if i = 1 then none else some ⟨lit "a", lit "u"⟩) 3) 3 = 3 :=
  C8_gap_fill_exactly_missing
    (fun i => if i = 1 then none else some ⟨lit "a", lit "u"⟩)
    (fun _ => ⟨lit "Neural Norse #1", lit "https://arweave.net/abc"⟩) 3
    (by decide)

theorem findIdx?_acc_spec {α : Type} (p : α → Bool) :
    ∀ (l : List α) (s k : Nat), List.findIdx? p l s = some k →
      s ≤ k ∧ (∃ m, l[k - s]? = some m ∧ p m = true) ∧
      ∀ j m', j < k - s → l[j]? = some m' → p m' = false := by
  intro l
  induction l with
  | nil =>
    intro s k h
    rw [List.findIdx?_nil] at h
    cases h
  | cons a t ih =>
    intro s k h
    rw [List.findIdx?_cons] at h
    by_cases hp : p a = true
    · rw [if_pos hp] at h
      obtain rfl := Option.some.inj h
      refine ⟨Nat.le_refl s, ⟨a, ?_, hp⟩, ?_⟩
      · simp
      · intro j m' hj _
        exact absurd hj (by omega)
    · rw [if_neg hp] at h
      obtain ⟨hsk, ⟨m, hm, hpm⟩, hfirst⟩ := ih (s + 1) k h
      refine ⟨by omega, ⟨m, ?_, hpm⟩, ?_⟩
      · have hd : k - s = (k - (s + 1)) + 1 := by omega
        rw [hd, List.getElem?_cons_succ]
        exact hm
      · intro j m' hj hjm
        cases j with
        | zero =>
          rw [List.getElem?_cons_zero] at hjm
          obtain rfl := Option.some.inj hjm
          exact eq_false_of_ne_true hp
        | succ j' =>
          rw [List.getElem?_cons_succ] at hjm
          exact hfirst j' m' (by omega) hjm

theorem set_self_of_getElem? {α : Type} :
    ∀ (l : List α) (i : Nat) (a : α), l[i]? = some a → l.set i a = l := by
  intro l
  induction l with
  | nil => intro i a h; cases h
  | cons b t ih =>
    intro i a h
    cases i with
    | zero =>
      rw [List.getElem?_cons_zero] at h
      obtain rfl := Option.some.inj h
      rfl
    | succ i' =>
      rw [List.getElem?_cons_succ] at h
      simp [List.set, ih i' a h]

theorem markMintedAt_getElem?_ne (w : Str) (p : Nat) (items : List MetaItem)
    (j : Nat) (h : j ≠ p) : (markMintedAt w p items)[j]? = items[j]? := by
  unfold markMintedAt
  rcases hp : items[p]? with _ | m
  · rfl
  · exact List.getElem?_set_ne (Ne.symm h)

theorem markMintedAt_getElem?_self (w : Str) (p : Nat) (items : List MetaItem)
    (m : MetaItem) (h : items[p]? = some m) :
    (markMintedAt w p items)[p]? =
      some { m with minted := true, mintedTo := some w } := by
  unfold markMintedAt
  rw [h]
  exact List.getElem?_set_self (List.getElem?_eq_some.mp h).1

theorem markMintedAt_indexMap (w : Str) (p : Nat) (items : List MetaItem) :
    (markMintedAt w p items).map (fun m => m.index) =
      items.map (fun m => m.index) := by
  unfold markMintedAt
  rcases hp : items[p]? with _ | m
  · rfl
  · rw [List.map_set]
    exact set_self_of_getElem? _ p m.index
      (by rw [List.getElem?_map, hp]; rfl)

theorem allocOnce_inv (w : Str) (items : List MetaItem) (p id : Nat)
    (items' : List MetaItem) (h : allocOnce w items = some (p, id, items')) :
    items.findIdx? (fun m => !m.minted) = some p ∧
    ∃ m, items[p]? = some m ∧ id = m.index ∧ items' = markMintedAt w p items := by
  unfold allocOnce at h
  rcases hf : items.findIdx? (fun m => !m.minted) with _ | p' <;>
    rw [hf] at h <;> dsimp only at h
  · cases h
  · rcases hg : items[p']? with _ | m <;> rw [hg] at h <;> dsimp only at h
    · cases h
    · cases h
      exact ⟨hf, m, hg, rfl, rfl⟩

theorem allocSeq_cons_none (w : Str) (ws : List Str) (items : List MetaItem)
    (h : allocOnce w items = none) :
    allocSeq (w :: ws) items = allocSeq ws items := by
  simp only [allocSeq, h]

theorem allocSeq_cons_some (w : Str) (ws : List Str) (items : List MetaItem)
    (p id : Nat) (items' : List MetaItem)
    (h : allocOnce w items = some (p, id, items')) :
    allocSeq (w :: ws) items =
      ((p, id) :: (allocSeq ws items').1, (allocSeq ws items').2) := by
  simp only [allocSeq, h]

theorem allocSeq_spec : ∀ (ws : List Str) (items : List MetaItem) (k : Nat),
    (∀ j m, j < k → items[j]? = some m → m.minted = true) →
    ((allocSeq ws items).1.map Prod.fst).Pairwise (· < ·) ∧
    (∀ pr ∈ (allocSeq ws items).1, k ≤ pr.1 ∧
      (items.map (fun m => m.index))[pr.1]? = some pr.2) := by
  intro ws
  induction ws with
  | nil =>
    intro items k _
    simp [allocSeq]
  | cons w rest ih =>
    intro items k hk
    rcases halloc : allocOnce w items with _ | ⟨p, id, items'⟩
    · rw [allocSeq_cons_none w rest items halloc]
      exact ih items k hk
    · obtain ⟨hfind, m0, hget, hid, hitems'⟩ := allocOnce_inv w items p id items' halloc
      obtain ⟨-, ⟨mf, hmf, hpmf⟩, hfirst⟩ := findIdx?_acc_spec _ items 0 p hfind
      simp only [Nat.sub_zero] at hmf hfirst
      have hmm : mf = m0 := by
        rw [hmf] at hget
        exact Option.some.inj hget
      have hm0 : m0.minted = false := by
        rw [hmm] at hpmf
        simpa using hpmf
      have hkp : k ≤ p := by
        by_contra hlt
        push_neg at hlt
        have := hk p m0 hlt hget
        rw [this] at hm0
        cases hm0
      have hk' : ∀ j m', j < p + 1 →
          (markMintedAt w p items)[j]? = some m' → m'.minted = true := by
        intro j m' hj hjm
        by_cases hjp : j = p
        · subst hjp
          rw [markMintedAt_getElem?_self w j items m0 hget] at hjm
          obtain rfl := Option.some.inj hjm
          rfl
        · rw [markMintedAt_getElem?_ne w p items j hjp] at hjm
          have := hfirst j m' (by omega) hjm
          simpa using this
      obtain ⟨hpair, hmem⟩ := ih (markMintedAt w p items) (p + 1) hk'
      rw [allocSeq_cons_some w rest items p id items' halloc]
      subst hitems'
      constructor
      · simp only [List.map_cons]
        refine List.Pairwise.cons ?_ hpair
        intro q hq
        rw [List.mem_map] at hq
        obtain ⟨pr, hpr, rfl⟩ := hq
        have := (hmem pr hpr).1
        omega
      · intro pr hpr
        rcases List.mem_cons.mp hpr with rfl | hpr'
        · refine ⟨hkp, ?_⟩
          rw [List.getElem?_map, hget, hid]
          rfl
        · have h2 := hmem pr hpr'
          refine ⟨by omega, ?_⟩
          rw [← markMintedAt_indexMap w p items]
          exact h2.2

/-- Counterexample to C7 as stated: between `index.find(m => !m.minted)`
(src/api/mint.js line 334) and the mutation `available.minted = true`
(line 344) the handler awaits the on-chain mint, so two concurrent calls
can interleave find-find-mark-mark; on a fresh two-item index both calls
then report the same inventory index 0 — the returned indices are not
pairwise distinct. -/
theorem C7_counterexample :
    (allocRun (lit "w") [false, true, false, true]
      (allocRaceInit [⟨0, false, none⟩, ⟨1, false, none⟩])).resultA = some 0 ∧
    (allocRun (lit "w") [false, true, false, true]
      (allocRaceInit [⟨0, false, none⟩, ⟨1, false, none⟩])).resultB = some 0 := by
  decide

/-- Claim C7 amended: under sequential (non-interleaved) execution the
find-first-unminted allocator does return pairwise distinct results: the
claimed list positions are strictly increasing, and provided the metadata
index carries pairwise distinct `index` fields, the reported inventory
indices of any run of allocate calls are pairwise distinct. -/
theorem C7_sequential_allocations_distinct (ws : List Str)
    (items : List MetaItem)
    (hidx : (items.map (fun m => m.index)).Nodup) :
    ((allocSeq ws items).1.map Prod.fst).Pairwise (· < ·) ∧
    ((allocSeq ws items).1.map Prod.snd).Nodup := by
  obtain ⟨hpair, hmem⟩ :=
    allocSeq_spec ws items 0 (fun j m hj _ => absurd hj (by omega))
  refine ⟨hpair, ?_⟩
  have hp2 : (allocSeq ws items).1.Pairwise (fun a b => a.1 < b.1) :=
    (List.pairwise_map).mp hpair
  have hne : (allocSeq ws items).1.Pairwise (fun a b => a.2 ≠ b.2) := by
    refine List.Pairwise.imp_of_mem ?_ hp2
    intro a b ha hb hlt heq
    have h1 := (hmem a ha).2
    have h2 := (hmem b hb).2
    rw [heq] at h1
    have hlen : a.1 < (items.map (fun m => m.index)).length :=
      (List.getElem?_eq_some.mp h1).1
    have : a.1 = b.1 := List.getElem?_inj hlen hidx (h1.trans h2.symm)
    omega
  exact (List.pairwise_map).mpr hne

/-- Witness for C7 on a concrete two-item index and two calls. -/
theorem C7_witness :
    ((allocSeq [lit "a", lit "b"]
        [⟨5, false, none⟩, ⟨7, false, none⟩]).1.map Prod.fst).Pairwise (· < ·) ∧
    ((allocSeq [lit "a", lit "b"]
        [⟨5, false, none⟩, ⟨7, false, none⟩]).1.map Prod.snd).Nodup :=
  C7_sequential_allocations_distinct [lit "a", lit "b"]
    [⟨5, false, none⟩, ⟨7, false, none⟩] (by decide)
